import Mathlib

/-!
Verification of jnv's interactive evaluation engine.

The development shallowly embeds the parts of the program that the
properties below talk about:

* `src/trie.rs` — the filter-history trie (`FilterTrie`), modelled by its
  list of key–value bindings (a `radix_trie::Trie<String, Vec<Value>>` is a
  finite map from query strings to results; `insert` overwrites the binding
  at an existing key, `get` is exact lookup, and `get_ancestor` returns the
  node of the longest stored key that is a prefix of the argument and
  carries a value).
* `src/jnv.rs` — `Jnv::try_new` (cache seeding) and the query-changed
  branch of `Jnv::evaluate` (cache lookup, jq invocation, hint updates,
  longest-prefix fallback, cache insertion).
* `src/json.rs` — `Json::create_panes_from_query` and `run_jaq`.
* `src/processor.rs` — `Processor::render_result`, `render_on_resize` and
  `spawn_process_task` (task lifecycle).
* `src/prompt.rs` — the Shift-Up/Shift-Down focus handling of the main
  event loop.
* `src/search.rs` — `IncrementalSearcher::start_search`.

External effects (libjq / jaq invocations, JSON deserialization, lock
acquisition) are passed in as explicit parameters, so every definition is
executable.
-/

/-- JSON values (`serde_json::Value`), with numbers restricted to integers;
none of the verified properties depend on number representation. -/
inductive JsonValue where
  | null
  | bool (b : Bool)
  | num (n : Int)
  | str (s : String)
  | arr (elems : List JsonValue)
  | obj (fields : List (String × JsonValue))

/-- Test against the JSON null (`*val == Value::Null` in the source). -/
def JsonValue.isNull : JsonValue → Bool
  | .null => true
  | _ => false

/-- Prefix test on query strings: `a` is a prefix of `b` as a character
sequence. For valid UTF-8 this coincides with the byte-prefix relation the
radix trie uses on its `String` keys. -/
def queryIsPrefixOf (a b : String) : Bool :=
  a.data.isPrefixOf b.data

/-- The filter-history trie of `src/trie.rs`
(`FilterTrie(Trie<String, Vec<serde_json::Value>>)`), modelled by its list
of key–value bindings. -/
abbrev FilterTrie : Type := List (String × List JsonValue)

/-- The empty trie (`FilterTrie::default()`). -/
def FilterTrie.empty : FilterTrie := []

/-- Model of `FilterTrie::insert` (src/trie.rs line 9): `radix_trie::Trie::insert`
stores the value at the key, overwriting any previous binding there. -/
def FilterTrie.insert (t : FilterTrie) (query : String) (json_nodes : List JsonValue) : FilterTrie :=
  (query, json_nodes) :: List.filter (fun p => p.1 != query) t

/-- Model of `FilterTrie::exact_search` (src/trie.rs line 13): `Trie::get`, the
value bound to exactly this key. -/
def FilterTrie.exact_search (t : FilterTrie) (query : String) : Option (List JsonValue) :=
  (List.find? (fun p => p.1 == query) t).map Prod.snd

/-- One step of the ancestor scan: keep the binding whose key is the
longest prefix of `q` seen so far (strictly longer keys win, as in
`Trie::get_ancestor`, where the ancestor keys of a given key form a chain
so at most one stored key of each length is a prefix). -/
def ancestorStep (q : String) :
    Option (String × List JsonValue) → (String × List JsonValue) →
      Option (String × List JsonValue)
  | none, p => if queryIsPrefixOf p.1 q then some p else none
  | some b, p =>
      if queryIsPrefixOf p.1 q then
        if b.1.length < p.1.length then some p else some b
      else some b

/-- Model of `FilterTrie::prefix_search` (src/trie.rs line 17):
`Trie::get_ancestor(query).and_then(|subtrie| subtrie.value())`, the value
at the longest stored key that is a prefix of `query`. -/
def FilterTrie.prefix_search (t : FilterTrie) (query : String) : Option (List JsonValue) :=
  (List.foldl (ancestorStep query) none t).map Prod.snd

-- Sanity checks mirroring the unit tests of src/trie.rs.
example :
    FilterTrie.exact_search
      (FilterTrie.insert (FilterTrie.insert FilterTrie.empty "apple" []) "app" [JsonValue.null])
      "application" = none := by rfl

example :
    FilterTrie.prefix_search
      (FilterTrie.insert (FilterTrie.insert FilterTrie.empty "apple" []) "app" [JsonValue.null])
      "application" = some [JsonValue.null] := by rfl

example :
    FilterTrie.prefix_search
      (FilterTrie.insert (FilterTrie.insert FilterTrie.empty "apple" []) "app" [JsonValue.null])
      "ap" = none := by rfl


/-! Basic facts about the key-prefix relation. -/

theorem string_length_eq_data (s : String) : s.length = s.data.length := by
  cases s
  rfl

theorem queryIsPrefixOf_refl (q : String) : queryIsPrefixOf q q = true := by
  simp [queryIsPrefixOf, List.isPrefixOf_iff_prefix]

theorem length_le_of_queryIsPrefixOf {a q : String} (h : queryIsPrefixOf a q = true) :
    a.length ≤ q.length := by
  simp only [queryIsPrefixOf, List.isPrefixOf_iff_prefix] at h
  rw [string_length_eq_data, string_length_eq_data]
  exact h.length_le

theorem eq_of_queryIsPrefixOf_of_length {a q : String} (h : queryIsPrefixOf a q = true)
    (hlen : q.length ≤ a.length) : a = q := by
  simp only [queryIsPrefixOf, List.isPrefixOf_iff_prefix] at h
  refine String.ext (h.eq_of_length_le ?_)
  rw [← string_length_eq_data, ← string_length_eq_data]
  exact hlen

/-! Characterization of the ancestor scan behind `FilterTrie.prefix_search`. -/

theorem ancestorStep_eq_none_iff {q : String} {acc : Option (String × List JsonValue)}
    {p : String × List JsonValue} :
    ancestorStep q acc p = none ↔ acc = none ∧ queryIsPrefixOf p.1 q = false := by
  cases acc with
  | none => by_cases hp : queryIsPrefixOf p.1 q = true <;> simp [ancestorStep, hp]
  | some b =>
    by_cases hp : queryIsPrefixOf p.1 q = true <;>
      by_cases hlt : b.1.length < p.1.length <;> simp [ancestorStep, hp, hlt]

theorem ancestorStep_eq_some_cases {q : String} {acc : Option (String × List JsonValue)}
    {p a : String × List JsonValue} (h : ancestorStep q acc p = some a) :
    (a = p ∧ queryIsPrefixOf p.1 q = true) ∨ acc = some a := by
  cases acc with
  | none =>
    by_cases hp : queryIsPrefixOf p.1 q = true
    · simp only [ancestorStep, if_pos hp] at h
      cases h
      exact Or.inl ⟨rfl, hp⟩
    · simp only [ancestorStep, if_neg hp] at h
      exact Option.noConfusion h
  | some b =>
    by_cases hp : queryIsPrefixOf p.1 q = true
    · by_cases hlt : b.1.length < p.1.length
      · simp only [ancestorStep, if_pos hp, if_pos hlt] at h
        cases h
        exact Or.inl ⟨rfl, hp⟩
      · simp only [ancestorStep, if_pos hp, if_neg hlt] at h
        exact Or.inr h
    · simp only [ancestorStep, if_neg hp] at h
      exact Or.inr h

theorem ancestorStep_length_le {q : String} {acc : Option (String × List JsonValue)}
    {p a : String × List JsonValue} (h : ancestorStep q acc p = some a) :
    (queryIsPrefixOf p.1 q = true → p.1.length ≤ a.1.length) ∧
    (∀ a₀, acc = some a₀ → a₀.1.length ≤ a.1.length) := by
  cases acc with
  | none =>
    by_cases hp : queryIsPrefixOf p.1 q = true
    · simp only [ancestorStep, if_pos hp] at h
      cases h
      exact ⟨fun _ => le_refl _, fun a₀ h₀ => Option.noConfusion h₀⟩
    · simp only [ancestorStep, if_neg hp] at h
      exact Option.noConfusion h
  | some b =>
    by_cases hp : queryIsPrefixOf p.1 q = true
    · by_cases hlt : b.1.length < p.1.length
      · simp only [ancestorStep, if_pos hp, if_pos hlt] at h
        cases h
        exact ⟨fun _ => le_refl _, fun a₀ h₀ => by cases h₀; exact Nat.le_of_lt hlt⟩
      · simp only [ancestorStep, if_pos hp, if_neg hlt] at h
        cases h
        exact ⟨fun _ => Nat.le_of_not_lt hlt, fun a₀ h₀ => by cases h₀; exact le_refl _⟩
    · simp only [ancestorStep, if_neg hp] at h
      cases h
      exact ⟨fun hc => absurd hc hp, fun a₀ h₀ => by cases h₀; exact le_refl _⟩

theorem ancestorStep_prefix_invariant {q : String} {acc : Option (String × List JsonValue)}
    {p a : String × List JsonValue}
    (hacc : ∀ a₀, acc = some a₀ → queryIsPrefixOf a₀.1 q = true)
    (h : ancestorStep q acc p = some a) : queryIsPrefixOf a.1 q = true := by
  rcases ancestorStep_eq_some_cases h with ⟨rfl, hp⟩ | hacc'
  · exact hp
  · exact hacc a hacc'

theorem foldl_ancestorStep_eq_none (q : String) :
    ∀ (l : List (String × List JsonValue)) (acc : Option (String × List JsonValue)),
      List.foldl (ancestorStep q) acc l = none ↔
        acc = none ∧ ∀ p ∈ l, queryIsPrefixOf p.1 q = false := by
  intro l
  induction l with
  | nil => intro acc; simp
  | cons p l ih =>
    intro acc
    rw [List.foldl_cons, ih, ancestorStep_eq_none_iff]
    constructor
    · rintro ⟨⟨hacc, hp⟩, hrest⟩
      refine ⟨hacc, ?_⟩
      intro p' hp'
      rcases List.mem_cons.mp hp' with heq | hm
      · rw [heq]; exact hp
      · exact hrest p' hm
    · rintro ⟨hacc, hall⟩
      exact ⟨⟨hacc, hall p (List.mem_cons_self _ _)⟩,
        fun p' hm => hall p' (List.mem_cons_of_mem _ hm)⟩

theorem foldl_ancestorStep_eq_some (q : String) :
    ∀ (l : List (String × List JsonValue)) (acc : Option (String × List JsonValue)),
      (∀ a, acc = some a → queryIsPrefixOf a.1 q = true) →
      ∀ b, List.foldl (ancestorStep q) acc l = some b →
        (b ∈ l ∨ acc = some b) ∧ queryIsPrefixOf b.1 q = true ∧
        (∀ p ∈ l, queryIsPrefixOf p.1 q = true → p.1.length ≤ b.1.length) ∧
        (∀ a, acc = some a → a.1.length ≤ b.1.length) := by
  intro l
  induction l with
  | nil =>
    intro acc hacc b hb
    simp only [List.foldl_nil] at hb
    refine ⟨Or.inr hb, hacc b hb, ?_, ?_⟩
    · intro p hp
      exact absurd hp (List.not_mem_nil p)
    · intro a ha
      rw [hb] at ha
      cases ha
      exact le_refl _
  | cons p l ih =>
    intro acc hacc b hb
    rw [List.foldl_cons] at hb
    have hacc' : ∀ a, ancestorStep q acc p = some a → queryIsPrefixOf a.1 q = true :=
      fun a ha => ancestorStep_prefix_invariant hacc ha
    obtain ⟨hmem, hpre, hmax, haccb⟩ := ih (ancestorStep q acc p) hacc' b hb
    refine ⟨?_, hpre, ?_, ?_⟩
    · rcases hmem with hm | hm
      · exact Or.inl (List.mem_cons_of_mem _ hm)
      · rcases ancestorStep_eq_some_cases hm with ⟨heq, _⟩ | hm'
        · rw [heq]; exact Or.inl (List.mem_cons_self _ _)
        · exact Or.inr hm'
    · intro p' hp' hppre
      rcases List.mem_cons.mp hp' with heq | hm
      · subst heq
        cases hc : ancestorStep q acc p' with
        | none =>
          rw [ancestorStep_eq_none_iff] at hc
          simp [hppre] at hc
        | some a =>
          exact le_trans ((ancestorStep_length_le hc).1 hppre) (haccb a hc)
      · exact hmax p' hm hppre
    · intro a₀ h₀
      cases hc : ancestorStep q acc p with
      | none =>
        rw [ancestorStep_eq_none_iff] at hc
        simp [h₀] at hc
      | some a =>
        exact le_trans ((ancestorStep_length_le hc).2 a₀ h₀) (haccb a hc)

theorem foldl_ancestorStep_keeps_full (q : String) (a : String × List JsonValue)
    (ha : a.1 = q) :
    ∀ l : List (String × List JsonValue),
      List.foldl (ancestorStep q) (some a) l = some a := by
  intro l
  induction l with
  | nil => rfl
  | cons p l ih =>
    rw [List.foldl_cons]
    have hstep : ancestorStep q (some a) p = some a := by
      by_cases hp : queryIsPrefixOf p.1 q = true
      · have hle : p.1.length ≤ q.length := length_le_of_queryIsPrefixOf hp
        have hnlt : ¬ a.1.length < p.1.length := by
          rw [ha]
          exact Nat.not_lt.mpr hle
        simp only [ancestorStep, if_pos hp, if_neg hnlt]
      · simp only [ancestorStep, if_neg hp]
    rw [hstep]
    exact ih

theorem foldl_ancestorStep_of_find_q (q : String) :
    ∀ (l : List (String × List JsonValue)) (acc : Option (String × List JsonValue)),
      (∀ a, acc = some a → queryIsPrefixOf a.1 q = true ∧ a.1 ≠ q) →
      ∀ pr, List.find? (fun p => p.1 == q) l = some pr →
        List.foldl (ancestorStep q) acc l = some pr := by
  intro l
  induction l with
  | nil =>
    intro acc _ pr h
    exact Option.noConfusion h
  | cons p l ih =>
    intro acc hacc pr hfind
    rw [List.foldl_cons]
    by_cases hq : (p.1 == q) = true
    · rw [List.find?_cons_of_pos (a := p) _ hq] at hfind
      cases hfind
      have hpq : p.1 = q := by simpa using hq
      have hppre : queryIsPrefixOf p.1 q = true := by
        rw [hpq]
        exact queryIsPrefixOf_refl q
      have hstep : ancestorStep q acc p = some p := by
        cases hc : acc with
        | none => simp only [ancestorStep, if_pos hppre]
        | some b =>
          obtain ⟨hbpre, hbne⟩ := hacc b hc
          have hblt : b.1.length < p.1.length := by
            rcases Nat.lt_or_ge b.1.length p.1.length with hlt | hge
            · exact hlt
            · exfalso
              exact hbne (eq_of_queryIsPrefixOf_of_length hbpre (by rw [← hpq]; exact hge))
          simp only [ancestorStep, if_pos hppre, if_pos hblt]
      rw [hstep]
      exact foldl_ancestorStep_keeps_full q p hpq l
    · rw [List.find?_cons_of_neg (a := p) _ hq] at hfind
      refine ih (ancestorStep q acc p) ?_ pr hfind
      intro a ha
      rcases ancestorStep_eq_some_cases ha with ⟨heq, hp⟩ | h'
      · subst heq
        exact ⟨hp, by simpa using hq⟩
      · exact hacc a h'

/-- C5: for every cache state and query `q`, `FilterTrie.prefix_search`
returns `none` exactly when no stored key is a prefix of `q`, and any
returned value is the value stored at a stored key that is a prefix of `q`
of maximal length among all stored prefix keys of `q`. -/
theorem prefix_search_returns_longest_stored_key (t : FilterTrie) (q : String) :
    (FilterTrie.prefix_search t q = none ↔ ∀ p ∈ t, queryIsPrefixOf p.1 q = false) ∧
    (∀ r, FilterTrie.prefix_search t q = some r →
      ∃ k, (k, r) ∈ t ∧ queryIsPrefixOf k q = true ∧
        ∀ p ∈ t, queryIsPrefixOf p.1 q = true → p.1.length ≤ k.length) := by
  constructor
  · simp only [FilterTrie.prefix_search, Option.map_eq_none']
    rw [foldl_ancestorStep_eq_none]
    simp
  · intro r hr
    simp only [FilterTrie.prefix_search] at hr
    rcases Option.map_eq_some'.mp hr with ⟨b, hb, hsnd⟩
    obtain ⟨hmem, hpre, hmax, -⟩ :=
      foldl_ancestorStep_eq_some q t none (fun a ha => Option.noConfusion ha) b hb
    rcases hmem with hm | hm
    · subst hsnd
      exact ⟨b.1, by rw [Prod.mk.eta]; exact hm, hpre, hmax⟩
    · exact Option.noConfusion hm

/-- Witness for C5 at concrete caches and queries. -/
theorem prefix_search_returns_longest_stored_key_witness :
    (∃ k, (k, [JsonValue.num 1]) ∈
        ([(".", [JsonValue.null]), (".a", [JsonValue.num 1])] : FilterTrie) ∧
      queryIsPrefixOf k ".ab" = true ∧
      ∀ p ∈ ([(".", [JsonValue.null]), (".a", [JsonValue.num 1])] : FilterTrie),
        queryIsPrefixOf p.1 ".ab" = true → p.1.length ≤ k.length) ∧
    FilterTrie.prefix_search [("x", [JsonValue.null])] ".ab" = none :=
  ⟨(prefix_search_returns_longest_stored_key
        [(".", [JsonValue.null]), (".a", [JsonValue.num 1])] ".ab").2
      [JsonValue.num 1] (by rfl),
    (prefix_search_returns_longest_stored_key [("x", [JsonValue.null])] ".ab").1.mpr (by
      intro p hp
      simp only [List.mem_singleton] at hp
      subst hp
      rfl)⟩

/-- C6: for every cache state and query, an exact-lookup hit implies the
longest-prefix lookup returns the same result:
`exact_search t q = some r → prefix_search t q = some r`. -/
theorem exact_search_imp_prefix_search (t : FilterTrie) (q : String) (r : List JsonValue)
    (h : FilterTrie.exact_search t q = some r) :
    FilterTrie.prefix_search t q = some r := by
  simp only [FilterTrie.exact_search] at h
  rcases Option.map_eq_some'.mp h with ⟨pr, hfind, hsnd⟩
  have hfold := foldl_ancestorStep_of_find_q q t none
    (fun a ha => Option.noConfusion ha) pr hfind
  simp only [FilterTrie.prefix_search, hfold, Option.map_some']
  rw [hsnd]

/-- Witness for C6 at a concrete cache and query. -/
theorem exact_search_imp_prefix_search_witness :
    FilterTrie.prefix_search [(".", [JsonValue.null]), (".a", [JsonValue.num 2])] ".a" =
      some [JsonValue.num 2] :=
  exact_search_imp_prefix_search [(".", [JsonValue.null]), (".a", [JsonValue.num 2])] ".a"
    [JsonValue.num 2] (by rfl)

/-! Model of the query-changed branch of `Jnv::evaluate` (src/jnv.rs,
lines 270–372) together with the startup seeding of `Jnv::try_new`
(src/jnv.rs, lines 151–154).

The calls into libjq (`run_jq`) and into serde_json (`deserialize_json`)
are external; their outcomes are passed in as the parameters `jqResult`
and `parse`. -/

/-- Colors of the hint styles used by `Jnv::evaluate`. -/
inductive HintColor where
  | red
  | yellow
  | darkGrey
deriving DecidableEq

/-- The hint messages `Jnv::evaluate` can set, each carrying the text
payload interpolated into the message in the source. -/
inductive HintMsg where
  | fromCache (filter : String)
  | noResults (filter : String)
  | nullWarning (filter : String)
  | parseFailed (err : String)
  | jqFailed (filter : String)
deriving DecidableEq

/-- Style color attached to each hint message in the source. -/
def HintMsg.color : HintMsg → HintColor
  | .fromCache _ => .darkGrey
  | .noResults _ => .red
  | .nullWarning _ => .yellow
  | .parseFailed _ => .red
  | .jqFailed _ => .red

/-- The parts of the `Jnv` renderer state that `evaluate` reads and
writes: the filter trie, the JSON stream shown in the viewer, and the
hint message (`None` models the reset initial hint). -/
structure EvalState where
  trie : FilterTrie
  stream : List JsonValue
  hint : Option HintMsg

/-- Model of `Jnv::update_hint_message` (src/jnv.rs line 219): replaces the hint
only when hints are enabled. -/
def updateHintMessage (noHint : Bool) (m : HintMsg) (st : EvalState) : EvalState :=
  if noHint then st else { st with hint := some m }

/-- The `if let Some(searched) = self.trie.prefix_search(&filter)` fallback
repeated in the degraded branches of `Jnv::evaluate`: rebuild the stream
from the longest-prefix cached result when one exists. -/
def applyPrefixFallback (filter : String) (st : EvalState) : EvalState :=
  match FilterTrie.prefix_search st.trie filter with
  | some searched => { st with stream := searched }
  | none => st

/-- Result of one evaluation step: the new state, and whether the external
jq engine (`run_jq`) was invoked. -/
structure EvalOutcome where
  state : EvalState
  engineInvoked : Bool

/-- The query-changed branch of `Jnv::evaluate` (src/jnv.rs 270–372):
reset the hint, try the exact cache, otherwise run jq; classify the result
as empty / unparsable / all-null / success, updating hint, stream and trie
as the source does. `jqResult` is the outcome of `run_jq(&filter, ...)`,
`parse` the outcome of `deserialize_json` on the joined output lines. -/
def Jnv.evaluateQuery (st : EvalState) (filter : String) (noHint : Bool)
    (jqResult : Except String (List String))
    (parse : String → Except String (List JsonValue)) : EvalOutcome :=
  let st1 : EvalState := { st with hint := none }
  match FilterTrie.exact_search st1.trie filter with
  | some jsonl =>
      { state := updateHintMessage noHint (.fromCache filter) { st1 with stream := jsonl },
        engineInvoked := false }
  | none =>
      match jqResult with
      | .error _ =>
          { state := applyPrefixFallback filter
              (updateHintMessage noHint (.jqFailed filter) st1),
            engineInvoked := true }
      | .ok ret =>
          if ret.isEmpty then
            { state := applyPrefixFallback filter
                (updateHintMessage noHint (.noResults filter) st1),
              engineInvoked := true }
          else
            match parse (String.intercalate "\n" ret) with
            | .ok jsonl =>
                if jsonl.all JsonValue.isNull then
                  { state := applyPrefixFallback filter
                      (updateHintMessage noHint (.nullWarning filter) st1),
                    engineInvoked := true }
                else
                  { state := { st1 with
                      trie := FilterTrie.insert st1.trie filter jsonl,
                      stream := jsonl },
                    engineInvoked := true }
            | .error e =>
                { state := applyPrefixFallback filter
                    (updateHintMessage noHint (.parseFailed e) st1),
                  engineInvoked := true }

/-- The startup cache seeding of `Jnv::try_new` (src/jnv.rs 151–154):
`trie.insert(".", input_stream.clone())`, unconditionally. -/
def Jnv.initTrie (input_stream : List JsonValue) : FilterTrie :=
  FilterTrie.insert FilterTrie.empty "." input_stream

/-- The initial renderer state built by `Jnv::try_new`: seeded trie, the
input document in the viewer, initial hint. -/
def Jnv.initState (input_stream : List JsonValue) : EvalState :=
  { trie := Jnv.initTrie input_stream, stream := input_stream, hint := none }

/-- States of the `Jnv` renderer reachable from startup by any sequence of
query-changed evaluation steps, with arbitrary external jq and parse
outcomes at each step. -/
inductive Jnv.Reachable (doc : List JsonValue) : EvalState → Prop where
  | init : Jnv.Reachable doc (Jnv.initState doc)
  | step (st : EvalState) (filter : String) (noHint : Bool)
      (jqResult : Except String (List String))
      (parse : String → Except String (List JsonValue)) :
      Jnv.Reachable doc st →
      Jnv.Reachable doc (Jnv.evaluateQuery st filter noHint jqResult parse).state

/-! Helper lemmas about the evaluation step. -/

theorem mem_insert_cases {t : FilterTrie} {q : String} {v : List JsonValue}
    {p : String × List JsonValue} (h : p ∈ FilterTrie.insert t q v) :
    p = (q, v) ∨ p ∈ t := by
  simp only [FilterTrie.insert, List.mem_cons] at h
  rcases h with h | h
  · exact Or.inl h
  · exact Or.inr (List.mem_of_mem_filter h)

theorem updateHintMessage_trie (noHint : Bool) (m : HintMsg) (st : EvalState) :
    (updateHintMessage noHint m st).trie = st.trie := by
  unfold updateHintMessage
  split <;> rfl

theorem updateHintMessage_stream (noHint : Bool) (m : HintMsg) (st : EvalState) :
    (updateHintMessage noHint m st).stream = st.stream := by
  unfold updateHintMessage
  split <;> rfl

theorem applyPrefixFallback_trie (filter : String) (st : EvalState) :
    (applyPrefixFallback filter st).trie = st.trie := by
  unfold applyPrefixFallback
  split <;> rfl

theorem applyPrefixFallback_hint (filter : String) (st : EvalState) :
    (applyPrefixFallback filter st).hint = st.hint := by
  unfold applyPrefixFallback
  split <;> rfl

/-- Either an evaluation step leaves the trie unchanged, or it inserts the
parsed jq output after observing that it is not all-null. -/
theorem evaluateQuery_trie_cases (st : EvalState) (filter : String) (noHint : Bool)
    (jqResult : Except String (List String))
    (parse : String → Except String (List JsonValue)) :
    (Jnv.evaluateQuery st filter noHint jqResult parse).state.trie = st.trie ∨
    ∃ jsonl, jsonl.all JsonValue.isNull = false ∧
      (Jnv.evaluateQuery st filter noHint jqResult parse).state.trie =
        FilterTrie.insert st.trie filter jsonl := by
  unfold Jnv.evaluateQuery
  dsimp only
  cases FilterTrie.exact_search st.trie filter with
  | some jsonl =>
    left
    exact updateHintMessage_trie ..
  | none =>
    cases jqResult with
    | error e =>
      left
      rw [applyPrefixFallback_trie, updateHintMessage_trie]
    | ok ret =>
      by_cases hret : ret.isEmpty
      · left
        simp only [if_pos hret]
        rw [applyPrefixFallback_trie, updateHintMessage_trie]
      · simp only [if_neg hret]
        cases parse (String.intercalate "\n" ret) with
        | ok jsonl =>
          by_cases hnull : jsonl.all JsonValue.isNull
          · left
            simp only [if_pos hnull]
            rw [applyPrefixFallback_trie, updateHintMessage_trie]
          · right
            refine ⟨jsonl, ?_, ?_⟩
            · simp only [Bool.not_eq_true] at hnull
              exact hnull
            · simp only [if_neg hnull]
        | error e =>
          left
          rw [applyPrefixFallback_trie, updateHintMessage_trie]

/-- C2 counterexample: with the input document `null`, the startup-seeded
state is reachable and its (seeded) cache entry is all-null, so not every
stored entry was observed non-empty and not all-null. -/
theorem seeded_trie_entry_all_null :
    Jnv.Reachable [JsonValue.null] (Jnv.initState [JsonValue.null]) ∧
    ¬ (∀ p ∈ (Jnv.initState [JsonValue.null]).trie,
        p.2 ≠ [] ∧ p.2.all JsonValue.isNull = false) := by
  refine ⟨Jnv.Reachable.init, ?_⟩
  intro h
  have hmem : ((".", [JsonValue.null]) : String × List JsonValue) ∈
      (Jnv.initState [JsonValue.null]).trie := by
    simp [Jnv.initState, Jnv.initTrie, FilterTrie.insert, FilterTrie.empty]
  have hobs := h (".", [JsonValue.null]) hmem
  exact absurd hobs.2 (by decide)

/-- C2 (amended): in every reachable cache state, every stored entry is
either the unconditional startup seed `("." ↦ document)` or was inserted by
an evaluation step after being observed not all-null (hence non-empty). -/
theorem reachable_trie_entries_seeded_or_observed (doc : List JsonValue) (st : EvalState)
    (h : Jnv.Reachable doc st) :
    ∀ p ∈ st.trie, p = (".", doc) ∨ (p.2 ≠ [] ∧ p.2.all JsonValue.isNull = false) := by
  induction h with
  | init =>
    intro p hp
    simp only [Jnv.initState, Jnv.initTrie, FilterTrie.insert, FilterTrie.empty,
      List.filter_nil, List.mem_singleton] at hp
    exact Or.inl hp
  | step st filter noHint jqResult parse hst ih =>
    intro p hp
    rcases evaluateQuery_trie_cases st filter noHint jqResult parse with hsame | ⟨jsonl, hnull, hins⟩
    · rw [hsame] at hp
      exact ih p hp
    · rw [hins] at hp
      rcases mem_insert_cases hp with heq | hp'
      · subst heq
        refine Or.inr ⟨?_, hnull⟩
        intro hnil
        dsimp only at hnil
        rw [hnil] at hnull
        exact absurd hnull (by decide)
      · exact ih p hp'

/-- Witness for the amended C2 at the startup state of a concrete document. -/
theorem reachable_trie_entries_seeded_or_observed_witness :
    ((".", [JsonValue.num 3]) : String × List JsonValue) = (".", [JsonValue.num 3]) ∨
      ([JsonValue.num 3] ≠ [] ∧ [JsonValue.num 3].all JsonValue.isNull = false) :=
  reachable_trie_entries_seeded_or_observed [JsonValue.num 3] _ Jnv.Reachable.init
    (".", [JsonValue.num 3])
    (by simp [Jnv.initState, Jnv.initTrie, FilterTrie.insert, FilterTrie.empty])

/-- C4: the evaluation step consults the exact cache before the engine: on
a hit the engine is not invoked, the viewer stream is rebuilt from the
cached result, and (when hints are enabled) the informational from-cache
hint is shown; the engine is invoked only on a miss. -/
theorem evaluateQuery_exact_lookup_first (st : EvalState) (filter : String) (noHint : Bool)
    (jqResult : Except String (List String))
    (parse : String → Except String (List JsonValue)) :
    (∀ jsonl, FilterTrie.exact_search st.trie filter = some jsonl →
      (Jnv.evaluateQuery st filter noHint jqResult parse).engineInvoked = false ∧
      (Jnv.evaluateQuery st filter noHint jqResult parse).state.stream = jsonl ∧
      (noHint = false →
        (Jnv.evaluateQuery st filter noHint jqResult parse).state.hint =
          some (HintMsg.fromCache filter))) ∧
    (FilterTrie.exact_search st.trie filter = none →
      (Jnv.evaluateQuery st filter noHint jqResult parse).engineInvoked = true) := by
  constructor
  · intro jsonl hhit
    unfold Jnv.evaluateQuery
    dsimp only
    rw [hhit]
    refine ⟨rfl, updateHintMessage_stream .., ?_⟩
    intro hfalse
    subst hfalse
    rfl
  · intro hmiss
    unfold Jnv.evaluateQuery
    dsimp only
    rw [hmiss]
    cases jqResult with
    | error e => rfl
    | ok ret =>
      by_cases hret : ret.isEmpty
      · simp only [if_pos hret]
      · simp only [if_neg hret]
        cases parse (String.intercalate "\n" ret) with
        | ok jsonl =>
          by_cases hnull : jsonl.all JsonValue.isNull
          · simp only [if_pos hnull]
          · simp only [if_neg hnull]
        | error e => rfl

/-- Witness for C4 at the startup state: the identity query hits the seed. -/
theorem evaluateQuery_exact_lookup_first_witness :
    (Jnv.evaluateQuery (Jnv.initState [JsonValue.num 1]) "." false (Except.ok [])
        (fun s => Except.error s)).engineInvoked = false ∧
    (Jnv.evaluateQuery (Jnv.initState [JsonValue.num 1]) "." false (Except.ok [])
        (fun s => Except.error s)).state.stream = [JsonValue.num 1] ∧
    (false = false →
      (Jnv.evaluateQuery (Jnv.initState [JsonValue.num 1]) "." false (Except.ok [])
          (fun s => Except.error s)).state.hint = some (HintMsg.fromCache ".")) :=
  (evaluateQuery_exact_lookup_first (Jnv.initState [JsonValue.num 1]) "." false
      (Except.ok []) (fun s => Except.error s)).1 [JsonValue.num 1] (by rfl)

/-! Model of `Json::create_panes_from_query` and `run_jaq` (src/json.rs)
and of the pane writes of `Processor::spawn_process_task`
(src/processor.rs). -/

/-- Guide panes produced by `Json::create_panes_from_query` (src/json.rs):
the yellow null warning and the red jq-failed message, each carrying the
text payload interpolated into the message. -/
inductive GuidePane where
  | jaqNullWarning (input : String)
  | jaqFailed (err : String)
deriving DecidableEq

/-- Style color attached to each guide pane in the source. -/
def GuidePane.color : GuidePane → HintColor
  | .jaqNullWarning _ => .yellow
  | .jaqFailed _ => .red

/-- Panes as far as the processor pipeline distinguishes them: the shared
`EMPTY_PANE`, a pane rendering a JSON stream, or a guide pane. -/
inductive Pane where
  | empty
  | json (stream : List JsonValue)
  | guide (g : GuidePane)

/-- The visualizer state of `Json` (src/json.rs) that
`create_panes_from_query` touches: the stream being shown. -/
structure JsonVisualizer where
  stream : List JsonValue

/-- Model of `Json::create_panes_from_query` (src/json.rs 146–183): on jq success
the stream is rebuilt and the guide is the null warning exactly when every
output value equals JSON null (vacuously true for the empty output); on jq
failure, a red jq-failed guide, no result pane, and the stream is left
untouched. `jaqResult` is the outcome of `run_jaq(&input, self.json)`. -/
def Json.create_panes_from_query (st : JsonVisualizer) (input : String)
    (jaqResult : Except String (List JsonValue)) :
    (Option Pane × Option Pane) × JsonVisualizer :=
  match jaqResult with
  | .ok ret =>
      let guide : Option Pane :=
        if ret.all (fun v => v.isNull) then some (Pane.guide (GuidePane.jaqNullWarning input))
        else none
      ((guide, some (Pane.json ret)), { stream := ret })
  | .error e => ((some (Pane.guide (GuidePane.jaqFailed e)), none), st)

/-- The two renderer panes written by `Processor::spawn_process_task`. -/
structure ProcessorPanes where
  processorGuide : Pane
  processor : Pane

/-- The pane writes at the end of `Processor::spawn_process_task`
(src/processor.rs 85–94): store the returned guide and result panes,
substituting `EMPTY_PANE` for an absent one. -/
def Processor.applyQueryPanes (panes : ProcessorPanes) (r : Option Pane × Option Pane) :
    ProcessorPanes :=
  { processorGuide := r.1.getD Pane.empty, processor := r.2.getD Pane.empty }

/-- One full processing task over the `Json` visualizer
(src/processor.rs 62–96): ask the visualizer for the query panes, then
write them to the pane array. -/
def Processor.processStep (panes : ProcessorPanes) (vis : JsonVisualizer)
    (input : String) (jaqResult : Except String (List JsonValue)) :
    ProcessorPanes × JsonVisualizer :=
  let r := Json.create_panes_from_query vis input jaqResult
  (Processor.applyQueryPanes panes r.1, r.2)

/-- C1 counterexample: starting from a Processor pane showing the last
valid result, a query that fails in the filter engine clears the Processor
pane to the empty pane instead of leaving it unchanged. -/
theorem failed_filter_clears_processor_pane :
    (Processor.processStep ⟨Pane.empty, Pane.json [JsonValue.num 1]⟩ ⟨[JsonValue.num 1]⟩
        ".foo(" (Except.error "jaq parse error")).1.processor = Pane.empty ∧
    (Processor.processStep ⟨Pane.empty, Pane.json [JsonValue.num 1]⟩ ⟨[JsonValue.num 1]⟩
        ".foo(" (Except.error "jaq parse error")).1.processor ≠
      Pane.json [JsonValue.num 1] := by
  refine ⟨rfl, ?_⟩
  intro h
  exact Pane.noConfusion h

/-- C1 (amended): for every query whose evaluation fails in the filter
engine, the processing task writes the red jq-failed guide to the
ProcessorGuide pane, clears the Processor pane to the empty pane, and
leaves the visualizer stream unchanged (this pipeline has no
longest-prefix fallback). -/
theorem failed_filter_red_guide_and_cleared_pane (panes : ProcessorPanes)
    (vis : JsonVisualizer) (input e : String) :
    (Processor.processStep panes vis input (Except.error e)).1.processorGuide =
      Pane.guide (GuidePane.jaqFailed e) ∧
    (GuidePane.jaqFailed e).color = HintColor.red ∧
    (Processor.processStep panes vis input (Except.error e)).1.processor = Pane.empty ∧
    (Processor.processStep panes vis input (Except.error e)).2 = vis :=
  ⟨rfl, rfl, rfl, rfl⟩

/-- C3 counterexample: in `Json::create_panes_from_query` the empty jq
output produces exactly the same null-warning guide as the all-null
output, so the empty and all-null warning conditions are not distinct
there. -/
theorem empty_result_warning_not_distinct :
    (Json.create_panes_from_query ⟨[]⟩ ".b" (Except.ok [])).1.1 =
      (Json.create_panes_from_query ⟨[]⟩ ".b" (Except.ok [JsonValue.null])).1.1 ∧
    (Json.create_panes_from_query ⟨[]⟩ ".b" (Except.ok [])).1.1 =
      some (Pane.guide (GuidePane.jaqNullWarning ".b")) :=
  ⟨rfl, rfl⟩

/-- C3 (amended): `Jnv::evaluate` distinguishes the empty result (red
no-results hint) from the all-null result (yellow null warning) with
distinct warnings, while `Json::create_panes_from_query` classifies the
empty output by the vacuously-true all-null check and emits the same null
warning for both conditions. -/
theorem empty_and_all_null_warning_conditions (st : EvalState) (filter : String)
    (parse : String → Except String (List JsonValue)) (ret : List String)
    (jsonl : List JsonValue)
    (hmiss : FilterTrie.exact_search st.trie filter = none) :
    ((Jnv.evaluateQuery st filter false (Except.ok []) parse).state.hint =
        some (HintMsg.noResults filter) ∧
      (HintMsg.noResults filter).color = HintColor.red) ∧
    (ret.isEmpty = false → parse (String.intercalate "\n" ret) = Except.ok jsonl →
      jsonl.all JsonValue.isNull = true →
      (Jnv.evaluateQuery st filter false (Except.ok ret) parse).state.hint =
        some (HintMsg.nullWarning filter) ∧
      (HintMsg.nullWarning filter).color = HintColor.yellow) ∧
    (∀ f, HintMsg.noResults f ≠ HintMsg.nullWarning f) ∧
    (∀ vis q, (Json.create_panes_from_query vis q (Except.ok [])).1.1 =
        some (Pane.guide (GuidePane.jaqNullWarning q)) ∧
      (Json.create_panes_from_query vis q (Except.ok [JsonValue.null])).1.1 =
        some (Pane.guide (GuidePane.jaqNullWarning q))) := by
  refine ⟨⟨?_, rfl⟩, fun hret hparse hnull => ⟨?_, rfl⟩,
    fun f h => HintMsg.noConfusion h, fun vis q => ⟨rfl, rfl⟩⟩
  · simp [Jnv.evaluateQuery, hmiss, applyPrefixFallback_hint, updateHintMessage]
  · simp [Jnv.evaluateQuery, hmiss, hret, hparse, hnull, applyPrefixFallback_hint,
      updateHintMessage]

/-- Witness for the amended C3 at a concrete state and query. -/
theorem empty_and_all_null_warning_conditions_witness :
    (Jnv.evaluateQuery ⟨[], [], none⟩ ".b" false (Except.ok [])
        (fun _ => Except.ok [JsonValue.null])).state.hint =
      some (HintMsg.noResults ".b") ∧
    (Jnv.evaluateQuery ⟨[], [], none⟩ ".b" false (Except.ok ["null"])
        (fun _ => Except.ok [JsonValue.null])).state.hint =
      some (HintMsg.nullWarning ".b") := by
  have h := empty_and_all_null_warning_conditions ⟨[], [], none⟩ ".b"
    (fun _ => Except.ok [JsonValue.null]) ["null"] [JsonValue.null] (by rfl)
  exact ⟨h.1.1, (h.2.1 rfl rfl (by decide)).1⟩

/-- Output collection of `run_jaq` (src/json.rs 210–212): the loop
`while let Some(Ok(val)) = out.next()` keeps the values up to the first
error item of the runtime output stream and stops there. -/
def collectOkValues : List (Except String JsonValue) → List JsonValue
  | [] => []
  | .ok v :: rest => v :: collectOkValues rest
  | .error _ :: _ => []

/-- Model of `run_jaq` (src/json.rs 185–216): for each input element the query is
parsed (`jaq_parse::parse`, outcome `parseResult`, the same for every
element) and a parse failure returns `Err`; otherwise the runtime output
stream for that element (`eval f input`) is collected up to its first
error value and the loop proceeds to the next element. -/
def run_jaq {F : Type} (parseResult : Except String F)
    (eval : F → JsonValue → List (Except String JsonValue)) :
    List JsonValue → Except String (List JsonValue)
  | [] => .ok []
  | input :: rest =>
      match parseResult with
      | .error e => .error e
      | .ok f =>
          match run_jaq parseResult eval rest with
          | .error e => .error e
          | .ok tail => .ok (collectOkValues (eval f input) ++ tail)

/-- C9: when the query parses successfully, `run_jaq` returns `Ok` of the
concatenation, per input element, of the runtime outputs collected up to
the first error value; post-parse runtime errors never reach the error
branch, so `Json::create_panes_from_query` never produces the jq-failed
guide for a successfully parsed query. -/
theorem run_jaq_ok_of_parse_ok {F : Type} (f : F)
    (eval : F → JsonValue → List (Except String JsonValue)) (inputs : List JsonValue) :
    run_jaq (Except.ok f) eval inputs =
      Except.ok (inputs.flatMap (fun v => collectOkValues (eval f v))) ∧
    ∀ vis q e,
      (Json.create_panes_from_query vis q (run_jaq (Except.ok f) eval inputs)).1.1 ≠
        some (Pane.guide (GuidePane.jaqFailed e)) := by
  have hok : run_jaq (Except.ok f) eval inputs =
      Except.ok (inputs.flatMap (fun v => collectOkValues (eval f v))) := by
    induction inputs with
    | nil => rfl
    | cons v rest ih => simp only [run_jaq, ih, List.flatMap_cons]
  refine ⟨hok, ?_⟩
  intro vis q e
  rw [hok]
  simp only [Json.create_panes_from_query]
  by_cases hnull :
      (inputs.flatMap fun v => collectOkValues (eval f v)).all (fun v => v.isNull) = true
  · simp [hnull]
  · simp [hnull]

/-- Witness for C9: a runtime error value truncates the per-element output
but the call still returns `Ok` and no jq-failed guide is produced. -/
theorem run_jaq_ok_of_parse_ok_witness :
    run_jaq (Except.ok 0)
        (fun _ v => [Except.ok v, Except.error "runtime error", Except.ok v])
        [JsonValue.num 1, JsonValue.num 2] =
      Except.ok [JsonValue.num 1, JsonValue.num 2] ∧
    (Json.create_panes_from_query ⟨[]⟩ ".x"
        (run_jaq (Except.ok 0)
          (fun _ v => [Except.ok v, Except.error "runtime error", Except.ok v])
          [JsonValue.num 1, JsonValue.num 2])).1.1 ≠
      some (Pane.guide (GuidePane.jaqFailed "some error")) := by
  have h := run_jaq_ok_of_parse_ok (F := Nat) 0
    (fun _ v => [Except.ok v, Except.error "runtime error", Except.ok v])
    [JsonValue.num 1, JsonValue.num 2]
  exact ⟨h.1.trans rfl, h.2 ⟨[]⟩ ".x" "some error"⟩

/-! Model of the task lifecycle of `Processor` (src/processor.rs). The two
entry points `render_result` and `render_on_resize` are only called from
the processor task loop of src/prompt.rs and hence execute serially; each
is modelled as one atomic transition on the shared context, extended with
liveness bookkeeping for spawned tasks. -/

/-- The shared `Context` (src/processor.rs 37–51) plus task-liveness
bookkeeping: `alive` holds the ids of tasks that were spawned and neither
aborted nor finished; `nextId` is a fresh-id counter; `currentTask` models
the stored `JoinHandle`. -/
structure ProcCtx where
  nextId : Nat
  currentTask : Option Nat
  alive : List Nat
  area : Nat × Nat

/-- Model of `Context::new` — Idle, no current task. -/
def ProcCtx.init (area : Nat × Nat) : ProcCtx :=
  { nextId := 0, currentTask := none, alive := [], area := area }

/-- The shared prologue `if let Some(task) = shared_state.current_task.take()
{ task.abort(); }` of both entry points. -/
def abortCurrent (c : ProcCtx) : ProcCtx :=
  match c.currentTask with
  | some t => { c with currentTask := none, alive := c.alive.filter (fun i => i != t) }
  | none => c

/-- Model of `spawn_process_task` followed by storing the handle:
spawn a fresh task and store its handle. -/
def spawnAndStore (c : ProcCtx) : ProcCtx :=
  { c with
    nextId := c.nextId + 1,
    currentTask := some c.nextId,
    alive := c.nextId :: c.alive }

/-- Model of `Processor::render_result` (src/processor.rs 123–144): abort the
current task, then spawn the successor and store its handle. -/
def Processor.render_result (c : ProcCtx) : ProcCtx :=
  spawnAndStore (abortCurrent c)

/-- Model of `Processor::render_on_resize` (src/processor.rs 98–121): additionally
overwrite the area before aborting and spawning. -/
def Processor.render_on_resize (c : ProcCtx) (area : Nat × Nat) : ProcCtx :=
  spawnAndStore (abortCurrent { c with area := area })

/-- A spawned task finishing on its own (the end of the
`spawn_process_task` body): it stops being alive; the stored handle is
not cleared by completion. -/
def taskCompletes (c : ProcCtx) (t : Nat) : ProcCtx :=
  { c with alive := c.alive.filter (fun i => i != t) }

/-- Events driving the processor context: the debounced query and resize
deliveries handled by the processor task loop, and task completion. -/
inductive ProcEvent where
  | queryChange
  | resize (area : Nat × Nat)
  | complete (t : Nat)

/-- One event of the processor task loop. -/
def procStep (c : ProcCtx) : ProcEvent → ProcCtx
  | .queryChange => Processor.render_result c
  | .resize a => Processor.render_on_resize c a
  | .complete t => taskCompletes c t

/-- The context after a sequence of events from startup. -/
def procRun (es : List ProcEvent) : ProcCtx :=
  List.foldl procStep (ProcCtx.init (0, 0)) es

/-- Liveness invariant: no task is alive, or exactly the stored current
task is alive. -/
def ProcInv (c : ProcCtx) : Prop :=
  c.alive = [] ∨ ∃ t, c.alive = [t] ∧ c.currentTask = some t

theorem abortCurrent_alive_nil {c : ProcCtx} (h : ProcInv c) :
    (abortCurrent c).alive = [] := by
  rcases h with h0 | ⟨t, ha, hc⟩
  · unfold abortCurrent
    cases c.currentTask with
    | none => exact h0
    | some t => dsimp only; rw [h0]; rfl
  · unfold abortCurrent
    rw [hc]
    dsimp only
    rw [ha]
    simp

theorem spawnAndStore_inv {c : ProcCtx} (h : c.alive = []) :
    ProcInv (spawnAndStore c) := by
  right
  exact ⟨c.nextId, by simp [spawnAndStore, h], rfl⟩

theorem procStep_inv (c : ProcCtx) (e : ProcEvent) (h : ProcInv c) :
    ProcInv (procStep c e) := by
  cases e with
  | queryChange => exact spawnAndStore_inv (abortCurrent_alive_nil h)
  | resize a =>
    refine spawnAndStore_inv (abortCurrent_alive_nil ?_)
    rcases h with h0 | ⟨t, ha, hc⟩
    · exact Or.inl h0
    · exact Or.inr ⟨t, ha, hc⟩
  | complete t =>
    rcases h with h0 | ⟨t', ha, hc⟩
    · left
      simp [procStep, taskCompletes, h0]
    · by_cases hbt : (t' != t) = true
      · right
        exact ⟨t', by simp [procStep, taskCompletes, ha, hbt], hc⟩
      · left
        simp only [procStep, taskCompletes, ha]
        simp [hbt]

theorem procRun_inv (es : List ProcEvent) : ProcInv (procRun es) := by
  suffices h : ∀ c, ProcInv c → ProcInv (List.foldl procStep c es) by
    exact h _ (Or.inl rfl)
  induction es with
  | nil => intro c hc; exact hc
  | cons e es ih =>
    intro c hc
    exact ih _ (procStep_inv c e hc)

/-- C7: over every sequence of query-change, resize and task-completion
events, at most one evaluation task is alive at any time, and any alive
task is the stored current task — both `Processor.render_result` and
`Processor.render_on_resize` abort the stored task before the newly
spawned task is stored as its successor. -/
theorem at_most_one_task_alive (es : List ProcEvent) :
    (procRun es).alive.length ≤ 1 ∧
    ∀ t ∈ (procRun es).alive, (procRun es).currentTask = some t := by
  rcases procRun_inv es with h | ⟨t, ht, hc⟩
  · rw [h]
    exact ⟨by simp, by simp⟩
  · rw [ht]
    refine ⟨by simp, ?_⟩
    intro t' ht'
    rw [List.mem_singleton] at ht'
    rw [ht', hc]

/-! Model of the Shift-Up / Shift-Down focus handling of the main task
(src/prompt.rs, lines 191–224). -/

/-- Focus states of the main event loop (`enum Focus` in src/prompt.rs). -/
inductive Focus where
  | editor
  | processor
deriving DecidableEq

/-- The Shift-Up / Shift-Down branch of the main task: returns the new
focus and whether the transient cannot-switch hint pane was posted. From
`Editor`, the focus moves to `Processor` only when the context is Idle,
otherwise the hint is posted and focus is unchanged; from `Processor`, the
focus moves back to `Editor` unconditionally and no hint is posted. -/
def handleFocusSwitch (focus : Focus) (isIdle : Bool) : Focus × Bool :=
  match focus with
  | .editor => if isIdle then (.processor, false) else (.editor, true)
  | .processor => (.editor, false)

/-- C8 counterexample: with focus on the Processor pane and the phase not
Idle, a Shift-Up/Shift-Down request still transitions the focus back to
the editor and posts no transient hint. -/
theorem focus_switch_processor_not_idle :
    (handleFocusSwitch Focus.processor false).1 ≠ Focus.processor ∧
    (handleFocusSwitch Focus.processor false).2 = false := by
  refine ⟨?_, rfl⟩
  intro h
  exact Focus.noConfusion h

/-- C8 (amended): the Editor→Processor focus transition happens only when
the phase is Idle — otherwise only a transient hint is posted and the
focus is unchanged — while the Processor→Editor transition happens
unconditionally, regardless of phase, with no hint. -/
theorem focus_switch_spec :
    handleFocusSwitch Focus.editor true = (Focus.processor, false) ∧
    handleFocusSwitch Focus.editor false = (Focus.editor, true) ∧
    ∀ b, handleFocusSwitch Focus.processor b = (Focus.editor, false) :=
  ⟨rfl, rfl, fun _ => rfl⟩

/-! Model of `IncrementalSearcher::start_search` (src/search.rs 124–155). -/

/-- The load state shared with the suggestion load task
(src/search.rs `LoadState`). -/
structure LoadState where
  loaded : Bool
  loaded_item_len : Nat
deriving DecidableEq

/-- The searcher-owned state that `start_search` may write: the listbox
items with the cursor position, and the tail buffer of not-yet-displayed
matches. -/
structure SearcherState where
  listbox : List String
  position : Nat
  search_chunk_remaining : List String
deriving DecidableEq

/-- Result record of `start_search` (src/search.rs `StartSearchResult`). -/
structure StartSearchResult where
  head_item : Option String
  load_state : LoadState
deriving DecidableEq

/-- Model of `IncrementalSearcher::start_search` (src/search.rs 124–155). The
booleans `readOk` and `lockOk` model the outcomes of `try_read` on the
load state and `try_lock` on the shared set; `set` holds the shared
`BTreeSet` contents in order. A lock failure returns the busy error
without touching anything. Otherwise the items starting with the prefix
are collected: when none match, the head is `none` and the searcher state
is untouched; when some match, the first `search_result_chunk_size` of
them become the fresh listbox with the cursor on its first item, the rest
become the tail buffer, and the listbox head is returned. -/
def start_search (s : SearcherState) (search_result_chunk_size : Nat)
    (set : List String) (ls : LoadState) (readOk lockOk : Bool)
    (pre : String) : Except String StartSearchResult × SearcherState :=
  if readOk && lockOk then
    let items := set.filter (fun p => queryIsPrefixOf pre p)
    if items.isEmpty then
      (Except.ok { head_item := none, load_state := ls }, s)
    else
      let used := items.take (min search_result_chunk_size items.length)
      let remaining := items.drop (min search_result_chunk_size items.length)
      (Except.ok { head_item := some (used.headD ""), load_state := ls },
        { listbox := used, position := 0, search_chunk_remaining := remaining })
  else
    (Except.error "Failed to acquire lock for ions. Please try again.", s)

/-- C10: when both locks are acquired and no loaded path starts with the
prefix, `start_search` returns `head_item = none` together with the
load-state snapshot, and leaves the suggestion listbox and the tail buffer
unchanged. -/
theorem start_search_no_match_unchanged (s : SearcherState) (chunk : Nat)
    (set : List String) (ls : LoadState) (pre : String)
    (hnone : set.filter (fun p => queryIsPrefixOf pre p) = []) :
    start_search s chunk set ls true true pre =
      (Except.ok { head_item := none, load_state := ls }, s) := by
  unfold start_search
  simp [hnone]

/-- Witness for C10 at a concrete searcher state, set and prefix. -/
theorem start_search_no_match_unchanged_witness :
    start_search ⟨["a"], 0, ["b"]⟩ 5 ["foo"] ⟨false, 1⟩ true true ".x" =
      (Except.ok { head_item := none, load_state := ⟨false, 1⟩ }, ⟨["a"], 0, ["b"]⟩) :=
  start_search_no_match_unchanged ⟨["a"], 0, ["b"]⟩ 5 ["foo"] ⟨false, 1⟩ ".x" (by rfl)

/-- Witness for C7: after one query-change event, exactly the stored task
is alive. -/
theorem at_most_one_task_alive_witness :
    (procRun [ProcEvent.queryChange]).alive.length ≤ 1 ∧
    (procRun [ProcEvent.queryChange]).currentTask = some 0 :=
  ⟨(at_most_one_task_alive [ProcEvent.queryChange]).1,
    (at_most_one_task_alive [ProcEvent.queryChange]).2 0 (by decide)⟩
